import Mathlib

/-!
Verification of the training-job orchestration core of the caption tool:
the event bus, the job queue, the Musubi Qwen-Image trainer (simulation
and real-process paths) and the step/ETA arithmetic of the training
manager.  Python integers are modelled as naturals on the nonnegative
domain the properties quantify over (every denominator in the source is
guarded by `max(1, ...)`); wall-clock times and float arithmetic are
modelled exactly over `ℚ`.
-/

/-- Ceiling of the exact rational quotient of two naturals, computed the way
integer arithmetic does it.  Connects Python's `math.ceil(a / d)` with the
`(a + d - 1) / d` form used in the proofs below. -/
theorem ceil_ratCast_div (a d : ℕ) (hd : 0 < d) :
    ⌈(a : ℚ) / (d : ℚ)⌉₊ = (a + d - 1) / d := by
  have hdq : (0 : ℚ) < (d : ℚ) := by exact_mod_cast hd
  apply le_antisymm
  · rw [Nat.ceil_le, div_le_iff₀ hdq]
    have h : a ≤ (a + d - 1) / d * d := by
      have h2 := Nat.div_add_mod' (a + d - 1) d
      have h3 : (a + d - 1) % d < d := Nat.mod_lt _ hd
      generalize (a + d - 1) / d * d = m at *
      omega
    exact_mod_cast h
  · have h : (a : ℚ) / d ≤ (⌈(a : ℚ) / d⌉₊ : ℚ) := Nat.le_ceil _
    rw [div_le_iff₀ hdq] at h
    have h2 : a ≤ ⌈(a : ℚ) / d⌉₊ * d := by exact_mod_cast h
    rw [Nat.div_le_iff_le_mul_add_pred hd]
    generalize ⌈(a : ℚ) / d⌉₊ = n at *
    have h3 : n * d = d * n := by ring
    rw [h3] at h2
    generalize d * n = m at *
    omega

/-- Training configuration (`trainers/types.py`, class `TrainingConfig`):
the fields the job core reads.  String knobs that only feed the composed
command line are kept where a claim mentions them. -/
structure TrainingConfig where
  name : String
  dataset_id : String
  dataset_size : ℕ
  repeats : ℕ := 1
  epochs : ℕ := 1
  batch_size : ℕ := 1
  grad_accum : ℕ := 1
deriving DecidableEq, Repr

/-- Steps per epoch (`musubi_qwen_image.py:59-62`):
`math.ceil((dataset_size * max(1, repeats)) / max(1, batch_size * max(1, grad_accum)))`. -/
def stepsPerEpoch (cfg : TrainingConfig) : ℕ :=
  ⌈((cfg.dataset_size * max 1 cfg.repeats : ℕ) : ℚ) /
    ((max 1 (cfg.batch_size * max 1 cfg.grad_accum) : ℕ) : ℚ)⌉₊

/-- Modelled from the spec: `total_steps(cfg)` of the §4.2 TrainingManager
(`steps_per_epoch * max(1, epochs)`).  That manager's source file is not in
the repository snapshot — only its caller (`main_flet_old.py:728`) and the
`_speed_cache` declaration survive — so the definition follows the spec's
words; its `steps_per_epoch` core is the source's `stepsPerEpoch` above. -/
def total_steps (cfg : TrainingConfig) : ℕ :=
  stepsPerEpoch cfg * max 1 cfg.epochs

theorem stepsPerEpoch_eq_div (cfg : TrainingConfig) :
    stepsPerEpoch cfg =
      (cfg.dataset_size * max 1 cfg.repeats +
        max 1 (cfg.batch_size * max 1 cfg.grad_accum) - 1) /
        max 1 (cfg.batch_size * max 1 cfg.grad_accum) :=
  ceil_ratCast_div _ _ (Nat.lt_of_lt_of_le Nat.zero_lt_one (le_max_left 1 _))

/-- C1: for every configuration (dataset_size is a natural, hence ≥ 0) the
total step count is `ceil((dataset_size * max(1, repeats)) /
max(1, batch_size * max(1, grad_accum))) * max(1, epochs)`, and a
configuration with `dataset_size = 0` yields 0 total steps. -/
theorem C1_total_steps_formula (cfg : TrainingConfig) :
    total_steps cfg =
      ⌈((cfg.dataset_size * max 1 cfg.repeats : ℕ) : ℚ) /
        ((max 1 (cfg.batch_size * max 1 cfg.grad_accum) : ℕ) : ℚ)⌉₊ *
        max 1 cfg.epochs ∧
    (cfg.dataset_size = 0 → total_steps cfg = 0) := by
  refine ⟨rfl, fun h => ?_⟩
  rw [total_steps, stepsPerEpoch_eq_div, h]
  have hd : 1 ≤ max 1 (cfg.batch_size * max 1 cfg.grad_accum) := le_max_left 1 _
  have hz : (0 * max 1 cfg.repeats +
      max 1 (cfg.batch_size * max 1 cfg.grad_accum) - 1) /
      max 1 (cfg.batch_size * max 1 cfg.grad_accum) = 0 :=
    Nat.div_eq_of_lt (by omega)
  rw [hz, Nat.zero_mul]

/-- Witness for C1 at a concrete configuration with `dataset_size = 0`. -/
theorem C1_total_steps_formula_witness :
    total_steps { name := "t", dataset_id := "d", dataset_size := 0 } = 0 :=
  (C1_total_steps_formula _).2 rfl

/-- Structured progress payload emitted by the simulation loop
(`musubi_qwen_image.py:72-75`); the wall-clock throughput and ETA fields it
also carries depend on real time and are outside the embedding. -/
structure SimProgress where
  step : ℕ
  total_steps : ℕ
  epoch : ℕ
  total_epochs : ℕ
deriving DecidableEq, Repr

/-- Simulation loop body (`musubi_qwen_image.py:63-76`), iterated over the
step numbers of `range(1, total_steps + 1)`.  Every iteration evaluates
`epoch = 1 + (step - 1) // steps_per_epoch` before the `step % 10` test, so
`steps_per_epoch = 0` raises `ZeroDivisionError`, modelled as `none`; a
progress payload is emitted only when `step % 10 == 0`. -/
def simStepsLoop (spe totalSteps totalEpochs : ℕ) : List ℕ → Option (List SimProgress)
  | [] => some []
  | s :: rest =>
    if spe = 0 then none
    else
      let epoch := 1 + (s - 1) / spe
      match simStepsLoop spe totalSteps totalEpochs rest with
      | none => none
      | some evs =>
        some ((if s % 10 = 0 then [⟨s, totalSteps, epoch, totalEpochs⟩] else []) ++ evs)

/-- Simulation-mode run (`musubi_qwen_image.py:55-77`, the branch taken when
no external trainer is configured): result is the list of emitted progress
payloads paired with the exit code 0, or `none` if an iteration divides by
zero. -/
def simRun (cfg : TrainingConfig) (totalSteps : ℕ) : Option (List SimProgress × ℕ) :=
  (simStepsLoop (stepsPerEpoch cfg) totalSteps (max 1 cfg.epochs)
      (List.range' 1 totalSteps)).map (fun evs => (evs, 0))

theorem simStepsLoop_of_pos (spe totalSteps totalEpochs : ℕ) (h : spe ≠ 0)
    (l : List ℕ) :
    simStepsLoop spe totalSteps totalEpochs l =
      some (l.filterMap (fun s =>
        if s % 10 = 0 then some ⟨s, totalSteps, 1 + (s - 1) / spe, totalEpochs⟩
        else none)) := by
  induction l with
  | nil => rfl
  | cons s rest ih =>
    simp only [simStepsLoop, if_neg h, ih, List.filterMap_cons]
    by_cases hs : s % 10 = 0 <;> simp [hs]

theorem total_steps_of_dataset_size_zero (cfg : TrainingConfig)
    (h : cfg.dataset_size = 0) : total_steps cfg = 0 := by
  rw [total_steps, stepsPerEpoch_eq_div, h]
  have hd : 1 ≤ max 1 (cfg.batch_size * max 1 cfg.grad_accum) := le_max_left 1 _
  have hz : (0 * max 1 cfg.repeats +
      max 1 (cfg.batch_size * max 1 cfg.grad_accum) - 1) /
      max 1 (cfg.batch_size * max 1 cfg.grad_accum) = 0 :=
    Nat.div_eq_of_lt (by omega)
  rw [hz, Nat.zero_mul]

/-- Closed form of the progress payloads the simulation loop emits: one
payload per multiple of 10 among the step numbers `1..N`. -/
def simProgressEvents (cfg : TrainingConfig) (N : ℕ) : List SimProgress :=
  (List.range' 1 N).filterMap (fun s =>
    if s % 10 = 0 then
      some ⟨s, N, 1 + (s - 1) / stepsPerEpoch cfg, max 1 cfg.epochs⟩
    else none)

theorem simProgressEvents_map_step (cfg : TrainingConfig) (N : ℕ) :
    (simProgressEvents cfg N).map (fun e => e.step) =
      (List.range' 1 N).filter (fun s => s % 10 = 0) := by
  rw [simProgressEvents, List.map_filterMap]
  have h : (fun s => (if s % 10 = 0 then
      some (⟨s, N, 1 + (s - 1) / stepsPerEpoch cfg, max 1 cfg.epochs⟩ : SimProgress)
    else none).map (fun e => e.step)) =
      fun s : ℕ => if (fun t : ℕ => t % 10 = 0) s then some s else none := by
    funext s
    by_cases hs : s % 10 = 0 <;> simp [hs]
  rw [h, ← List.filterMap_eq_filter]
  congr 1
  funext s
  by_cases hs : s % 10 = 0 <;> simp [Option.guard, hs]

theorem filter_mul10_last (N : ℕ) (h : 10 ≤ N) :
    ((List.range' 1 N).filter (fun s => s % 10 = 0)).getLast? =
      some (10 * (N / 10)) := by
  induction N, h using Nat.le_induction with
  | base => decide
  | succ N hN ih =>
    have hcat : List.range' 1 (N + 1) = List.range' 1 N ++ [N + 1] := by
      rw [List.range'_concat]
      simp [Nat.add_comm]
    rw [hcat, List.filter_append]
    by_cases hs : (N + 1) % 10 = 0
    · have hone : [N + 1].filter (fun s => s % 10 = 0) = [N + 1] := by simp [hs]
      rw [hone, List.getLast?_concat]
      have : 10 * ((N + 1) / 10) = N + 1 := by omega
      rw [this]
    · have hnone : [N + 1].filter (fun s => s % 10 = 0) = [] := by simp [hs]
      have hdiv : (N + 1) / 10 = N / 10 := by omega
      rw [hnone, List.append_nil, ih, hdiv]

theorem filter_mul10_nil (N : ℕ) (h : N < 10) :
    (List.range' 1 N).filter (fun s => s % 10 = 0) = [] := by
  apply List.filter_eq_nil_iff.mpr
  intro a ha
  have hm := List.mem_range'_1.mp ha
  simp only [decide_eq_true_eq]
  omega

/-- C4 amended: for every total-steps value `N` handed to a simulation-mode
run whose `steps_per_epoch` is nonzero, the run returns exit code 0 and
emits exactly one progress payload per multiple of 10 in `1..N`; hence the
last payload's step is `10 * (N / 10)` (not `N`) once `N ≥ 10`, and no
progress payload is emitted at all when `N < 10`. -/
theorem C4_sim_progress (cfg : TrainingConfig) (N : ℕ)
    (hspe : stepsPerEpoch cfg ≠ 0) :
    simRun cfg N = some (simProgressEvents cfg N, 0) ∧
    (simProgressEvents cfg N).map (fun e => e.step) =
      (List.range' 1 N).filter (fun s => s % 10 = 0) ∧
    (10 ≤ N → simProgressEvents cfg N ≠ [] ∧
      ((simProgressEvents cfg N).map (fun e => e.step)).getLast? =
        some (10 * (N / 10))) ∧
    (N < 10 → simProgressEvents cfg N = []) := by
  refine ⟨?_, simProgressEvents_map_step cfg N, fun hN => ⟨?_, ?_⟩, fun hN => ?_⟩
  · rw [simRun, simStepsLoop_of_pos _ _ _ hspe, Option.map_some']
    rfl
  · intro hnil
    have h1 := simProgressEvents_map_step cfg N
    rw [hnil] at h1
    have h2 := filter_mul10_last N hN
    rw [← h1] at h2
    simp at h2
  · rw [simProgressEvents_map_step, filter_mul10_last N hN]
  · have h1 := simProgressEvents_map_step cfg N
    rw [filter_mul10_nil N hN] at h1
    exact List.map_eq_nil_iff.mp h1

/-- Witness for C4's amended claim at `N = 20` with `dataset_size = 5`:
two progress payloads, last step 20, exit code 0. -/
theorem C4_sim_progress_witness :
    simRun { name := "t", dataset_id := "d", dataset_size := 5 } 20 =
      some (simProgressEvents { name := "t", dataset_id := "d", dataset_size := 5 } 20, 0) ∧
    simProgressEvents { name := "t", dataset_id := "d", dataset_size := 5 } 20 ≠ [] ∧
    ((simProgressEvents { name := "t", dataset_id := "d", dataset_size := 5 } 20).map
        (fun e => e.step)).getLast? = some 20 :=
  have hspe : stepsPerEpoch { name := "t", dataset_id := "d", dataset_size := 5 } ≠ 0 := by
    rw [stepsPerEpoch_eq_div]; decide
  ⟨(C4_sim_progress _ 20 hspe).1,
    ((C4_sim_progress _ 20 hspe).2.2.1 (by norm_num)).1,
    ((C4_sim_progress _ 20 hspe).2.2.1 (by norm_num)).2⟩

/-- C4 counterexample: with `dataset_size = 5` (all other knobs 1) the
computed total is `N = 5 > 0`, yet the simulation run emits NO progress
event at all (progress fires only every 10 steps), contradicting the claim
that the run emits at least one progress event with final step `N`. -/
theorem C4_counterexample :
    total_steps { name := "t", dataset_id := "d", dataset_size := 5 } = 5 ∧
    simRun { name := "t", dataset_id := "d", dataset_size := 5 } 5 =
      some ([], 0) := by
  have hspe : stepsPerEpoch { name := "t", dataset_id := "d", dataset_size := 5 } = 5 := by
    rw [stepsPerEpoch_eq_div]; decide
  constructor
  · rw [total_steps, hspe]
    decide
  · rw [simRun, simStepsLoop_of_pos _ _ _ (by rw [hspe]; decide)]
    decide

/-- C8 counterexample: with `dataset_size = 0` the simulation loop body
divides by zero (`(step - 1) // steps_per_epoch` with `steps_per_epoch = 0`)
as soon as it is invoked with a positive total-steps value, here 1. -/
theorem C8_counterexample :
    simRun { name := "t", dataset_id := "d", dataset_size := 0 } 1 = none := by
  have hspe : stepsPerEpoch { name := "t", dataset_id := "d", dataset_size := 0 } = 0 := by
    rw [stepsPerEpoch_eq_div]; decide
  rw [simRun, hspe]
  decide

/-- C8 amended: with `dataset_size = 0` the computed total-steps value is 0,
and the simulation run invoked with THAT value performs no division at all
(the step loop is empty) and exits with code 0; the `max(1, …)` guards
protect only the `steps_per_epoch` ceiling, not the per-step epoch division,
so other total-steps values are not covered. -/
theorem C8_sim_no_div (cfg : TrainingConfig) (h : cfg.dataset_size = 0) :
    total_steps cfg = 0 ∧ simRun cfg (total_steps cfg) = some ([], 0) := by
  have h0 := total_steps_of_dataset_size_zero cfg h
  rw [h0]
  exact ⟨rfl, rfl⟩

/-- Witness for C8's amended claim at a concrete zero-size configuration. -/
theorem C8_sim_no_div_witness :
    total_steps { name := "t", dataset_id := "d", dataset_size := 0 } = 0 ∧
    simRun { name := "t", dataset_id := "d", dataset_size := 0 }
      (total_steps { name := "t", dataset_id := "d", dataset_size := 0 }) =
      some ([], 0) :=
  C8_sim_no_div _ rfl

/-- Subscription table of the event bus (`events.py:16`,
`services/event_bus.py:7`): topic → handlers in registration order.
Handlers are named by numeric ids; their behaviour lives in an environment
(see `EventBus.emit`). -/
def Subs : Type := List (String × List ℕ)

/-- Handlers registered for a topic, `self._subs.get(topic, [])`
(the `defaultdict` is only read through `.get` inside `emit`, so a missing
topic yields the empty list without mutating the table). -/
def subsFor (subs : Subs) (topic : String) : List ℕ :=
  ((List.find? (fun p => p.1 = topic) subs).map (fun p => p.2)).getD []

/-- Behaviour of the handler with a given id: applied to the payload and
the current subscription table, it returns the table it leaves behind
(handlers may subscribe/unsubscribe) and whether it raised an exception. -/
def HandlerEnv (α : Type) : Type := ℕ → α → Subs → Subs × Bool

/-- Dispatch loop of `EventBus.emit` (`events.py:36-41`,
`services/event_bus.py:13-18`): iterate over a snapshot of the handler
list; each call sits in `try: h(payload) except Exception: pass`, so the
raised flag is discarded and the loop continues.  The `Except` layer is the
exception channel out of `emit`; nothing in the translated body produces
`Except.error`, because every handler exception is caught. -/
def emitLoop {α : Type} (env : HandlerEnv α) (p : α) :
    List ℕ → Subs → Except String (Subs × List (ℕ × α))
  | [], st => Except.ok (st, [])
  | h :: hs, st =>
    let r := env h p st
    match emitLoop env p hs r.1 with
    | Except.ok (st', invs) => Except.ok (st', (h, p) :: invs)
    | Except.error e => Except.error e

/-- The `EventBus.emit` method: snapshots `list(self._subs.get(topic, []))`
and runs the dispatch loop over that snapshot. -/
def emit {α : Type} (env : HandlerEnv α) (subs : Subs) (topic : String)
    (p : α) : Except String (Subs × List (ℕ × α)) :=
  emitLoop env p (subsFor subs topic) subs

/-- Subscription table left behind after the handlers run in order. -/
def emitFinal {α : Type} (env : HandlerEnv α) (p : α) (hs : List ℕ)
    (st : Subs) : Subs :=
  hs.foldl (fun s h => (env h p s).1) st

theorem emitLoop_spec {α : Type} (env : HandlerEnv α) (p : α)
    (hs : List ℕ) (st : Subs) :
    emitLoop env p hs st =
      Except.ok (emitFinal env p hs st, hs.map (fun h => (h, p))) := by
  induction hs generalizing st with
  | nil => rfl
  | cons h rest ih =>
    rw [emitLoop]
    rw [ih ((env h p st).1)]
    rfl

/-- C5: for every handler environment (including ones whose handlers raise),
every subscription table, topic and payload, `emit` invokes every handler
registered for the topic — in particular every handler registered after one
that raises — with that same payload, in registration order, and returns
normally (`Except.ok`): no handler exception reaches the emitter. -/
theorem C5_emit_isolates_handler_failures {α : Type} (env : HandlerEnv α)
    (subs : Subs) (topic : String) (p : α) :
    emit env subs topic p =
      Except.ok (emitFinal env p (subsFor subs topic) subs,
        (subsFor subs topic).map (fun h => (h, p))) :=
  emitLoop_spec env p (subsFor subs topic) subs

/-- C10: the handlers `emit` invokes are exactly those registered for the
topic at the moment `emit` begins, in registration order — handlers that
mutate the subscription table mid-emit cannot change who receives the
current payload — and a topic with no registered handlers yields no
invocation and a normal return leaving the table untouched. -/
theorem C10_emit_snapshot {α : Type} (env : HandlerEnv α) (subs : Subs)
    (topic : String) (p : α) :
    (emit env subs topic p).map (fun r => r.2.map (fun i => i.1)) =
      Except.ok (subsFor subs topic) ∧
    (subsFor subs topic = [] → emit env subs topic p = Except.ok (subs, [])) := by
  constructor
  · rw [emit, emitLoop_spec]
    simp only [Except.map, List.map_map]
    have hcomp : ((fun (i : ℕ × α) => i.1) ∘ fun h : ℕ => (h, p)) =
        fun h : ℕ => h := rfl
    rw [hcomp]
    exact congrArg Except.ok (List.map_id _)
  · intro h
    rw [emit, h]
    rfl

/-- Witness for C10 at a concrete bus: topic `"t"` has no registered
handler, so emit invokes nothing and leaves the table untouched. -/
theorem C10_emit_snapshot_witness :
    subsFor [("other", [1])] "t" = ([] : List ℕ) ∧
    emit (fun _ _ st => (st, false)) [("other", [1])] "t" (0 : ℕ) =
      Except.ok ([("other", [1])], []) :=
  ⟨rfl, (C10_emit_snapshot (fun _ _ st => (st, false)) [("other", [1])] "t" 0).2 rfl⟩

/-- Task lifecycle states carried on the `task_state` topic
(`events.py:84-96,113`). -/
inductive TaskState
  | queued
  | running
  | completed
  | failed
  | canceled
deriving DecidableEq, Repr

/-- A job handed to `JobQueue.submit` (`events.py` dataclass `Job`).
`runResult` is what the `run` callable will do on the worker: return an
exit code or raise; `cancelRaises` is whether the `cancel` callable raises
when invoked. -/
structure QJob where
  id : String
  name : String
  runResult : Except String ℤ
  cancelRaises : Bool
deriving Repr

/-- One `task_state` event: the `{"id": ..., "state": ...}` payload
(extra fields such as `name`, `rc` or `error` are not modelled). -/
structure StateEvent where
  id : String
  state : TaskState
deriving DecidableEq, Repr

/-- Lookup in the job registry dict `self._jobs` (`events.py:108`). -/
def lookupJob (reg : List (String × QJob)) (jobId : String) : Option QJob :=
  (List.find? (fun p => p.1 = jobId) reg).map (fun p => p.2)

/-- State of a `JobQueue`: the registry `self._jobs` (newest binding first,
mirroring dict overwrite on resubmission) and the runners handed to the
worker pool that have not executed yet, in submission order. -/
structure QueueState where
  jobs : List (String × QJob)
  pending : List QJob
deriving Repr

/-- The `JobQueue.submit` method (`events.py:71-97`): record the job in the
registry, emit `task_state = QUEUED`, schedule the `_runner` closure on the
pool, return immediately. -/
def submit (st : QueueState) (j : QJob) : QueueState × List StateEvent :=
  ({ jobs := (j.id, j) :: st.jobs, pending := st.pending ++ [j] },
   [⟨j.id, TaskState.queued⟩])

/-- Events the `_runner` closure emits for its job (`events.py:85-94`):
`RUNNING`, then `COMPLETED` if `run` returned 0, `FAILED` if it returned a
nonzero code or raised. -/
def runnerEvents (j : QJob) : List StateEvent :=
  ⟨j.id, TaskState.running⟩ ::
    (match j.runResult with
     | Except.ok rc =>
       [⟨j.id, if rc = 0 then TaskState.completed else TaskState.failed⟩]
     | Except.error _ => [⟨j.id, TaskState.failed⟩])

/-- A worker picks up the oldest scheduled runner and executes it to
completion; with no runner scheduled, nothing happens. -/
def runNext (st : QueueState) : QueueState × List StateEvent :=
  match st.pending with
  | [] => (st, [])
  | j :: rest => ({ st with pending := rest }, runnerEvents j)

/-- The `JobQueue.cancel` method (`events.py:99-117`): absent id → `false`,
no event.  Present id → invoke `job.cancel()` inside `try:`; if it returns,
emit `task_state = CANCELED` and return `true`; if it raises, the
`except Exception` arm returns `false` with no event — the exception never
propagates to the caller. -/
def cancel (st : QueueState) (jobId : String) : Bool × List StateEvent :=
  match lookupJob st.jobs jobId with
  | none => (false, [])
  | some j =>
    if j.cancelRaises then (false, [])
    else (true, [⟨jobId, TaskState.canceled⟩])

/-- Interleaved queue API calls and worker dispatches, the schedules under
which event traces are observed. -/
inductive QCmd
  | submit (j : QJob)
  | runNext
  | cancel (jobId : String)

/-- Event trace produced by executing a schedule against a queue state. -/
def execCmds (st : QueueState) : List QCmd → List StateEvent
  | [] => []
  | QCmd.submit j :: cs =>
    let r := submit st j
    r.2 ++ execCmds r.1 cs
  | QCmd.runNext :: cs =>
    let r := runNext st
    r.2 ++ execCmds r.1 cs
  | QCmd.cancel i :: cs =>
    let r := cancel st i
    r.2 ++ execCmds st cs

/-- The `task_state` values emitted for one job id, in emission order. -/
def statesFor (jobId : String) (evs : List StateEvent) : List TaskState :=
  (evs.filter (fun e => e.id = jobId)).map (fun e => e.state)

def isTerminal (s : TaskState) : Bool :=
  match s with
  | TaskState.completed => true
  | TaskState.failed => true
  | TaskState.canceled => true
  | _ => false

/-- The per-job event sequence the claim asserts: QUEUED, RUNNING, then
exactly one terminal state and nothing afterwards. -/
def claimedLifecycle (l : List TaskState) : Prop :=
  l = [TaskState.queued, TaskState.running, TaskState.completed] ∨
  l = [TaskState.queued, TaskState.running, TaskState.failed] ∨
  l = [TaskState.queued, TaskState.running, TaskState.canceled]

instance (l : List TaskState) : Decidable (claimedLifecycle l) := by
  unfold claimedLifecycle
  infer_instance

/-- Number of submit commands in a schedule carrying a given job id. -/
def submitsFor : List QCmd → String → ℕ
  | [], _ => 0
  | QCmd.submit j :: cs, i => (if j.id = i then 1 else 0) + submitsFor cs i
  | QCmd.runNext :: cs, i => submitsFor cs i
  | QCmd.cancel _ :: cs, i => submitsFor cs i

/-- Number of scheduled-but-not-yet-run jobs with a given id. -/
def pendingCount : List QJob → String → ℕ
  | [], _ => 0
  | j :: rest, i => (if j.id = i then 1 else 0) + pendingCount rest i

/-- Whether a schedule never calls `JobQueue.cancel`. -/
def noCancelCmd : List QCmd → Bool
  | [] => true
  | QCmd.cancel _ :: _ => false
  | QCmd.submit _ :: cs => noCancelCmd cs
  | QCmd.runNext :: cs => noCancelCmd cs

theorem statesFor_append (i : String) (a b : List StateEvent) :
    statesFor i (a ++ b) = statesFor i a ++ statesFor i b := by
  simp [statesFor, List.filter_append]

theorem pendingCount_append (a b : List QJob) (i : String) :
    pendingCount (a ++ b) i = pendingCount a i + pendingCount b i := by
  induction a with
  | nil => simp [pendingCount]
  | cons j rest ih => simp [pendingCount, ih]; omega

/-- The `task_state` sequences a job id can still produce, given how many
submits with that id remain in the schedule and how many of its runners are
already scheduled (in the executions C2 quantifies over, the two never
exceed 1 together). -/
def futureOk : ℕ → ℕ → List TaskState → Prop
  | 0, 0, l => l = []
  | _ + 1, 0, l =>
    l = [] ∨ l = [TaskState.queued] ∨
    l = [TaskState.queued, TaskState.running, TaskState.completed] ∨
    l = [TaskState.queued, TaskState.running, TaskState.failed]
  | 0, _ + 1, l =>
    l = [] ∨ l = [TaskState.running, TaskState.completed] ∨
    l = [TaskState.running, TaskState.failed]
  | _ + 1, _ + 1, _ => True

theorem execCmds_statesFor (i : String) (cmds : List QCmd) :
    ∀ st : QueueState,
      noCancelCmd cmds = true →
      submitsFor cmds i + pendingCount st.pending i ≤ 1 →
      futureOk (submitsFor cmds i) (pendingCount st.pending i)
        (statesFor i (execCmds st cmds)) := by
  induction cmds with
  | nil =>
    intro st _ _
    cases h : pendingCount st.pending i <;>
      simp [execCmds, statesFor, submitsFor, futureOk]
  | cons c cs ih =>
    intro st hnc hle
    cases c with
    | cancel i' => simp [noCancelCmd] at hnc
    | submit j =>
      have hnc' : noCancelCmd cs = true := hnc
      by_cases hid : j.id = i
      · have hz : submitsFor cs i = 0 ∧ pendingCount st.pending i = 0 := by
          simp only [submitsFor, if_pos hid] at hle
          omega
        have hpend : pendingCount (st.pending ++ [j]) i = 1 := by
          rw [pendingCount_append, hz.2]
          simp [pendingCount, hid]
        have hIH := ih ⟨(j.id, j) :: st.jobs, st.pending ++ [j]⟩ hnc'
          (by rw [hpend, hz.1])
        rw [hpend, hz.1] at hIH
        simp only [execCmds, submit] at *
        rw [statesFor_append]
        have hone : statesFor i [⟨j.id, TaskState.queued⟩] =
            [TaskState.queued] := by simp [statesFor, hid]
        rw [hone]
        simp only [submitsFor, if_pos hid, hz.1, hz.2]
        rcases hIH with h | h | h <;> rw [h] <;> simp [futureOk]
      · have hpend : pendingCount (st.pending ++ [j]) i =
            pendingCount st.pending i := by
          rw [pendingCount_append]
          simp [pendingCount, hid]
        have hle' : submitsFor cs i + pendingCount st.pending i ≤ 1 := by
          simp only [submitsFor, if_neg hid] at hle
          omega
        have hIH := ih ⟨(j.id, j) :: st.jobs, st.pending ++ [j]⟩ hnc'
          (by rw [hpend]; exact hle')
        rw [hpend] at hIH
        simp only [execCmds, submit] at *
        rw [statesFor_append]
        have hnone : statesFor i [⟨j.id, TaskState.queued⟩] = [] := by
          simp [statesFor, hid]
        rw [hnone, List.nil_append]
        simpa [submitsFor, hid] using hIH
    | runNext =>
      have hnc' : noCancelCmd cs = true := hnc
      have hsub : submitsFor (QCmd.runNext :: cs) i = submitsFor cs i := rfl
      cases hp : st.pending with
      | nil =>
        have hIH := ih st hnc' (by rw [hsub] at hle; exact hle)
        simp only [execCmds, runNext, hp] at *
        simpa [statesFor, submitsFor] using hIH
      | cons j rest =>
        by_cases hid : j.id = i
        · have hz : submitsFor cs i = 0 ∧ pendingCount rest i = 0 := by
            rw [hsub, hp] at hle
            simp only [pendingCount, if_pos hid] at hle
            omega
          have hIH := ih { st with pending := rest } hnc'
            (by simp only [hz.1, hz.2]; omega)
          simp only [hz.1, hz.2] at hIH
          simp only [execCmds, runNext, hp] at *
          rw [statesFor_append]
          have hrest : statesFor i (execCmds { st with pending := rest } cs) =
              [] := by
            have h0 : futureOk 0 0
                (statesFor i (execCmds { st with pending := rest } cs)) := hIH
            exact h0
          rw [hrest, List.append_nil]
          simp only [pendingCount, if_pos hid, hz.2]
          rw [hsub, hz.1]
          cases hr : j.runResult with
          | ok rc =>
            by_cases hrc : rc = 0
            · have : statesFor i (runnerEvents j) =
                  [TaskState.running, TaskState.completed] := by
                simp [runnerEvents, statesFor, hid, hr, hrc]
              rw [this]
              simp [futureOk]
            · have : statesFor i (runnerEvents j) =
                  [TaskState.running, TaskState.failed] := by
                simp [runnerEvents, statesFor, hid, hr, hrc]
              rw [this]
              simp [futureOk]
          | error e =>
            have : statesFor i (runnerEvents j) =
                [TaskState.running, TaskState.failed] := by
              simp [runnerEvents, statesFor, hid, hr]
            rw [this]
            simp [futureOk]
        · have hpc : pendingCount (j :: rest) i = pendingCount rest i := by
            simp [pendingCount, hid]
          have hIH := ih { st with pending := rest } hnc'
            (by rw [hsub, hp, hpc] at hle; exact hle)
          simp only [execCmds, runNext, hp] at *
          rw [statesFor_append]
          have hnone : statesFor i (runnerEvents j) = [] := by
            cases hr : j.runResult <;> simp [runnerEvents, statesFor, hid, hr]
          rw [hnone, List.nil_append, hpc]
          exact hIH

/-- C2 amended: for every schedule that never calls `JobQueue.cancel` and
submits a given job id at most once, the `task_state` events for that id
form a prefix of QUEUED, RUNNING, then exactly one terminal event
(COMPLETED or FAILED), with no event after the terminal one.  (With
`cancel` calls this fails: `cancel` emits CANCELED whenever the id is in
the registry, including after a terminal event — see the counterexample.) -/
theorem C2_lifecycle_without_cancel (cmds : List QCmd) (i : String)
    (hnc : noCancelCmd cmds = true) (hone : submitsFor cmds i ≤ 1) :
    statesFor i (execCmds ⟨[], []⟩ cmds) = [] ∨
    statesFor i (execCmds ⟨[], []⟩ cmds) = [TaskState.queued] ∨
    statesFor i (execCmds ⟨[], []⟩ cmds) =
      [TaskState.queued, TaskState.running, TaskState.completed] ∨
    statesFor i (execCmds ⟨[], []⟩ cmds) =
      [TaskState.queued, TaskState.running, TaskState.failed] := by
  have h := execCmds_statesFor i cmds ⟨[], []⟩ hnc
    (by simpa [pendingCount] using hone)
  cases hs : submitsFor cmds i with
  | zero =>
    rw [hs] at h
    exact Or.inl h
  | succ n =>
    rw [hs] at h
    exact h

/-- Witness for C2's amended claim: submit one job and dispatch it; its
trace is QUEUED, RUNNING, COMPLETED. -/
theorem C2_lifecycle_without_cancel_witness :
    noCancelCmd [QCmd.submit ⟨"a", "n", Except.ok 0, false⟩, QCmd.runNext] =
      true ∧
    submitsFor [QCmd.submit ⟨"a", "n", Except.ok 0, false⟩, QCmd.runNext]
      "a" ≤ 1 ∧
    (statesFor "a" (execCmds ⟨[], []⟩
        [QCmd.submit ⟨"a", "n", Except.ok 0, false⟩, QCmd.runNext]) = [] ∨
      statesFor "a" (execCmds ⟨[], []⟩
        [QCmd.submit ⟨"a", "n", Except.ok 0, false⟩, QCmd.runNext]) =
        [TaskState.queued] ∨
      statesFor "a" (execCmds ⟨[], []⟩
        [QCmd.submit ⟨"a", "n", Except.ok 0, false⟩, QCmd.runNext]) =
        [TaskState.queued, TaskState.running, TaskState.completed] ∨
      statesFor "a" (execCmds ⟨[], []⟩
        [QCmd.submit ⟨"a", "n", Except.ok 0, false⟩, QCmd.runNext]) =
        [TaskState.queued, TaskState.running, TaskState.failed]) :=
  ⟨rfl, by decide, C2_lifecycle_without_cancel _ _ rfl (by decide)⟩

/-- C2 counterexample: submit a job, let it COMPLETE, then call `cancel` on
its id.  The registry keeps terminal jobs, so `cancel` still finds the job
and emits CANCELED — a second terminal event after COMPLETED, falsifying
"exactly one terminal event and nothing after it". -/
theorem C2_counterexample :
    statesFor "a" (execCmds ⟨[], []⟩
        [QCmd.submit ⟨"a", "n", Except.ok 0, false⟩, QCmd.runNext,
          QCmd.cancel "a"]) =
      [TaskState.queued, TaskState.running, TaskState.completed,
        TaskState.canceled] ∧
    ¬ claimedLifecycle (statesFor "a" (execCmds ⟨[], []⟩
        [QCmd.submit ⟨"a", "n", Except.ok 0, false⟩, QCmd.runNext,
          QCmd.cancel "a"])) ∧
    ((statesFor "a" (execCmds ⟨[], []⟩
        [QCmd.submit ⟨"a", "n", Except.ok 0, false⟩, QCmd.runNext,
          QCmd.cancel "a"])).filter (fun s => isTerminal s)).length = 2 := by
  decide

/-- C7 amended: `cancel` on an absent id returns false with no event; on a
present id it invokes the job's cancel callable and never propagates its
exception — but when that callable raises, `cancel` returns FALSE and emits
NO event (the `except` arm), and only when it returns normally does
`cancel` emit CANCELED and return true. -/
theorem C7_cancel_behaviour (st : QueueState) (jobId : String) :
    (lookupJob st.jobs jobId = none → cancel st jobId = (false, [])) ∧
    (∀ j, lookupJob st.jobs jobId = some j →
      cancel st jobId =
        if j.cancelRaises then (false, [])
        else (true, [⟨jobId, TaskState.canceled⟩])) := by
  constructor
  · intro h
    rw [cancel, h]
  · intro j h
    rw [cancel, h]

/-- Witness for C7's amended claim: an absent id and a present id whose
cancel callable returns normally. -/
theorem C7_cancel_behaviour_witness :
    cancel ⟨[("a", ⟨"a", "n", Except.ok 0, false⟩)], []⟩ "b" = (false, []) ∧
    cancel ⟨[("a", ⟨"a", "n", Except.ok 0, false⟩)], []⟩ "a" =
      (true, [⟨"a", TaskState.canceled⟩]) :=
  ⟨(C7_cancel_behaviour ⟨[("a", ⟨"a", "n", Except.ok 0, false⟩)], []⟩ "b").1
      rfl,
    (C7_cancel_behaviour ⟨[("a", ⟨"a", "n", Except.ok 0, false⟩)], []⟩ "a").2
      ⟨"a", "n", Except.ok 0, false⟩ rfl⟩

/-- C7 counterexample: the id IS in the registry but the job's cancel
callable raises: `cancel` returns false and emits no CANCELED event,
against the claim that a present id always yields `(true, CANCELED)`. -/
theorem C7_counterexample :
    cancel ⟨[("a", ⟨"a", "n", Except.ok 0, true⟩)], []⟩ "a" = (false, []) :=
  rfl

/-- The `MusubiQwenImageTrainer` (`musubi_qwen_image.py:8-12`): `__init__`
runs `self._id = uuid.uuid4().hex` ONCE per instance; the drawn hex string
is the model's construction parameter. -/
structure MusubiQwenImageTrainer where
  _id : String
deriving Repr

/-- The `build_job` method (`musubi_qwen_image.py:42-49`): the returned
Job's id is the trainer's `self._id` and its name is `cfg.name`; `run`
delegates to `self.run(log_cb, progress_cb, cfg, total_steps)` and `cancel`
to `self.cancel` — their eventual dynamic outcomes are the last two
parameters. -/
def build_job (t : MusubiQwenImageTrainer) (cfg : TrainingConfig)
    (_totalSteps : ℕ) (runOutcome : Except String ℤ) (cancelRaises : Bool) :
    QJob :=
  { id := t._id, name := cfg.name, runResult := runOutcome,
    cancelRaises := cancelRaises }

theorem lookupJob_cons_self (j : QJob) (rest : List (String × QJob)) :
    lookupJob ((j.id, j) :: rest) j.id = some j := by
  rw [lookupJob, List.find?_cons_of_pos _ (by simp)]
  rfl

/-- C9 amended: every job built by one trainer instance carries that
instance's `_id`, fixed at construction — so two jobs built by the same
instance ALWAYS share an id, and submitting the second overwrites the
first's registry entry (lookup then yields the second job).  Distinct ids
require distinct trainer instances with distinct drawn uuid hex strings. -/
theorem C9_build_job_shares_trainer_id (t : MusubiQwenImageTrainer)
    (cfg1 cfg2 : TrainingConfig) (n1 n2 : ℕ) (r1 r2 : Except String ℤ)
    (c1 c2 : Bool) (st : QueueState) :
    (build_job t cfg1 n1 r1 c1).id = (build_job t cfg2 n2 r2 c2).id ∧
    lookupJob ((submit (submit st (build_job t cfg1 n1 r1 c1)).1
        (build_job t cfg2 n2 r2 c2)).1).jobs
      (build_job t cfg1 n1 r1 c1).id = some (build_job t cfg2 n2 r2 c2) := by
  refine ⟨rfl, ?_⟩
  exact lookupJob_cons_self (build_job t cfg2 n2 r2 c2) _

/-- C9 counterexample: two distinct jobs (different names, configs and
totals) built via `build_job` on ONE trainer instance share the instance's
id, and submitting both leaves only the second reachable in the registry —
the claim that distinct jobs never share an id fails. -/
theorem C9_counterexample :
    (build_job ⟨"u01"⟩ { name := "job-A", dataset_id := "d", dataset_size := 1 }
        10 (Except.ok 0) false).name ≠
      (build_job ⟨"u01"⟩ { name := "job-B", dataset_id := "d", dataset_size := 2 }
        20 (Except.ok 0) false).name ∧
    (build_job ⟨"u01"⟩ { name := "job-A", dataset_id := "d", dataset_size := 1 }
        10 (Except.ok 0) false).id =
      (build_job ⟨"u01"⟩ { name := "job-B", dataset_id := "d", dataset_size := 2 }
        20 (Except.ok 0) false).id ∧
    lookupJob ((submit (submit ⟨[], []⟩
        (build_job ⟨"u01"⟩ { name := "job-A", dataset_id := "d", dataset_size := 1 }
          10 (Except.ok 0) false)).1
        (build_job ⟨"u01"⟩ { name := "job-B", dataset_id := "d", dataset_size := 2 }
          20 (Except.ok 0) false)).1).jobs "u01" =
      some (build_job ⟨"u01"⟩ { name := "job-B", dataset_id := "d", dataset_size := 2 }
        20 (Except.ok 0) false) :=
  ⟨by decide, rfl, rfl⟩

/-- Result of the four independent text-pattern extractions on one output
line of the real-process path (`musubi_qwen_image.py:122-137`): `re_step`'s
first group, `re_epoch`'s first group, `re_eta`'s seconds, `re_ips`'s float
(a float-parse failure is already folded to `none` by the
`try/except: pass` at lines 133-137).  The regex matching itself is outside
the embedding; the loop's use of the extraction results is what matters
here. -/
structure LineInfo where
  step : Option ℕ
  epoch : Option ℕ
  eta : Option ℕ
  ips : Option ℚ
deriving DecidableEq, Repr

/-- Progress payload pushed by the real-process loop
(`musubi_qwen_image.py:139-147`). -/
structure ProgPayload where
  step : ℕ
  total_steps : ℕ
  epoch : ℕ
  total_epochs : ℕ
  ips : Option ℚ
  eta_secs : Option ℕ
deriving DecidableEq, Repr

/-- The output-streaming loop of the real-process path
(`musubi_qwen_image.py:109-147`), one iteration per line: `cur_step` and
`cur_epoch` persist across lines (initialised to 0 and 1 at lines 120-121)
and are replaced when the line's pattern matched (`getD`); `eta` and `ips`
are local variables re-initialised to `None` on EVERY line before their
patterns are tried; a payload is pushed whenever `cur_step` is nonzero
(`if cur_step:`). -/
def procLines (total te : ℕ) : ℕ × ℕ → List LineInfo → List ProgPayload
  | _, [] => []
  | cur, l :: rest =>
    let curStep := l.step.getD cur.1
    let curEpoch := l.epoch.getD cur.2
    (if curStep ≠ 0 then [⟨curStep, total, curEpoch, te, l.ips, l.eta⟩]
     else []) ++ procLines total te (curStep, curEpoch) rest

/-- Per-line view of the same loop: entry `k` is the payload the `k`-th
line pushes, `none` when that line pushes nothing. -/
def procLinesIdx (total te : ℕ) :
    ℕ × ℕ → List LineInfo → List (Option ProgPayload)
  | _, [] => []
  | cur, l :: rest =>
    let curStep := l.step.getD cur.1
    let curEpoch := l.epoch.getD cur.2
    (if curStep ≠ 0 then some ⟨curStep, total, curEpoch, te, l.ips, l.eta⟩
     else none) :: procLinesIdx total te (curStep, curEpoch) rest

/-- Last extracted step after a prefix of lines, seeded with `cur_step`. -/
def stepAfter (s0 : ℕ) (ls : List LineInfo) : ℕ :=
  ls.foldl (fun a l => (l.step).getD a) s0

/-- Last extracted epoch after a prefix of lines, seeded with `cur_epoch`. -/
def epochAfter (e0 : ℕ) (ls : List LineInfo) : ℕ :=
  ls.foldl (fun a l => (l.epoch).getD a) e0

theorem stepAfter_nil (s0 : ℕ) : stepAfter s0 [] = s0 := rfl

theorem stepAfter_cons (s0 : ℕ) (l : LineInfo) (ls : List LineInfo) :
    stepAfter s0 (l :: ls) = stepAfter (l.step.getD s0) ls := rfl

theorem epochAfter_nil (e0 : ℕ) : epochAfter e0 [] = e0 := rfl

theorem epochAfter_cons (e0 : ℕ) (l : LineInfo) (ls : List LineInfo) :
    epochAfter e0 (l :: ls) = epochAfter (l.epoch.getD e0) ls := rfl

/-- C6 amended: in the real-process loop the retained fields are step and
epoch ONLY: the `k`-th line pushes a payload exactly when the last
extracted step is nonzero, and that payload carries the last extracted step
and epoch but the CURRENT line's ETA and throughput — `none` when absent
from that line, never the previously extracted value. -/
theorem C6_payload_fields (total te : ℕ) (cur : ℕ × ℕ)
    (ls : List LineInfo) :
    procLines total te cur ls = (procLinesIdx total te cur ls).filterMap id ∧
    ∀ k lk, ls[k]? = some lk →
      (procLinesIdx total te cur ls)[k]? =
        some (if stepAfter cur.1 (ls.take (k + 1)) ≠ 0 then
          some ⟨stepAfter cur.1 (ls.take (k + 1)), total,
            epochAfter cur.2 (ls.take (k + 1)), te, lk.ips, lk.eta⟩
        else none) := by
  constructor
  · induction ls generalizing cur with
    | nil => rfl
    | cons l rest ih =>
      simp only [procLines, procLinesIdx]
      by_cases h : l.step.getD cur.1 ≠ 0
      · rw [if_pos h, if_pos h, List.filterMap_cons]
        simp only [id]
        rw [ih]
        rfl
      · rw [if_neg h, if_neg h, List.filterMap_cons]
        simp only [id]
        rw [ih]
        rfl
  · induction ls generalizing cur with
    | nil =>
      intro k lk hk
      simp at hk
    | cons l rest ih =>
      intro k lk hk
      cases k with
      | zero =>
        rw [List.getElem?_cons_zero, Option.some.injEq] at hk
        subst hk
        simp only [procLinesIdx, List.getElem?_cons_zero,
          List.take_succ_cons, List.take_zero, stepAfter_cons, stepAfter_nil,
          epochAfter_cons, epochAfter_nil]
      | succ n =>
        rw [List.getElem?_cons_succ] at hk
        simp only [procLinesIdx, List.getElem?_cons_succ,
          List.take_succ_cons, stepAfter_cons, epochAfter_cons]
        exact ih (l.step.getD cur.1, l.epoch.getD cur.2) n lk hk

/-- Witness for C6's amended claim at the two-line trace used in the
counterexample, at the second line. -/
theorem C6_payload_fields_witness :
    ([⟨some 1, none, some 50, some 2⟩, ⟨some 2, none, none, none⟩] :
        List LineInfo)[1]? = some ⟨some 2, none, none, none⟩ ∧
    (procLinesIdx 100 1 (0, 1)
        [⟨some 1, none, some 50, some 2⟩, ⟨some 2, none, none, none⟩])[1]? =
      some (if stepAfter 0 (([⟨some 1, none, some 50, some 2⟩,
            ⟨some 2, none, none, none⟩] : List LineInfo).take 2) ≠ 0 then
        some ⟨stepAfter 0 (([⟨some 1, none, some 50, some 2⟩,
            ⟨some 2, none, none, none⟩] : List LineInfo).take 2), 100,
          epochAfter 1 (([⟨some 1, none, some 50, some 2⟩,
            ⟨some 2, none, none, none⟩] : List LineInfo).take 2), 1,
          none, none⟩
      else none) :=
  ⟨rfl,
    (C6_payload_fields 100 1 (0, 1)
      [⟨some 1, none, some 50, some 2⟩, ⟨some 2, none, none, none⟩]).2
      1 ⟨some 2, none, none, none⟩ rfl⟩

/-- C6 counterexample: the first line extracts step 1, ETA 50 and
throughput 2; the second line extracts step 2 and nothing else.  The
payload for the second line carries `eta_secs = none` and `ips = none` —
the last known values 50 and 2 are NOT retained, falsifying the claim that
ETA and throughput retain their last extracted values. -/
theorem C6_counterexample :
    procLines 100 1 (0, 1)
        [⟨some 1, none, some 50, some 2⟩, ⟨some 2, none, none, none⟩] =
      [⟨1, 100, 1, 1, some 2, some 50⟩, ⟨2, 100, 1, 1, none, none⟩] ∧
    ((procLines 100 1 (0, 1)
        [⟨some 1, none, some 50, some 2⟩,
          ⟨some 2, none, none, none⟩]).map
      (fun p => (p.eta_secs, p.ips)))[1]? = some (none, none) := by
  decide

/-- The small positive epsilon flooring the elapsed time in the fallback
ETA (the simulation path uses `max(1e-3, elapsed)` at
`musubi_qwen_image.py:68`; the spec only asks for "a small positive
epsilon"). -/
def epsQ : ℚ := 1 / 1000

/-- Modelled from the spec: the fallback-ETA computation of the §4.2
`TrainingManager._on_progress`.  That handler is absent from the
repository snapshot — only its cache declaration
`_speed_cache: task_id -> (last_ts, last_step)`
(`core/training/manager.py:41-42`) survives — so the body follows the
spec's words: with cache entry `(t0, s0)`, elapsed `dt = max(eps, now-t0)`,
step delta `ds = max(0, step-s0)`, throughput `sps = ds / dt`, remaining
`remain = max(0, total-step)`, ETA `remain / sps` when `sps > 0`, else
unknown. -/
def fallbackEta (cache : Option (ℚ × ℚ)) (now total step : ℚ) : Option ℚ :=
  match cache with
  | none => none
  | some (t0, s0) =>
    let dt := max epsQ (now - t0)
    let ds := max 0 (step - s0)
    let sps := ds / dt
    let remain := max 0 (total - step)
    if 0 < sps then some (remain / sps) else none

/-- Modelled from the spec: the ETA-enrichment step of `_on_progress`
(§4.2): a nonzero backend-supplied `eta_secs` passes through unchanged;
otherwise the fallback is computed from the job's speed-cache entry; in
all cases the cache entry is then overwritten with `(now, step)`. -/
def on_progress (cache : Option (ℚ × ℚ)) (now total step : ℚ)
    (etaIn : Option ℚ) : Option ℚ × (ℚ × ℚ) :=
  let etaOut :=
    match etaIn with
    | some e => if e = 0 then fallbackEta cache now total step else some e
    | none => fallbackEta cache now total step
  (etaOut, (now, step))

/-- C3: for a progress event carrying a step but no nonzero backend ETA,
with speed-cache entry `(t0, s0)`, elapsed time at least the epsilon and a
positive step delta (positive throughput), the handler computes
`eta = max(0, total - step) / (max(0, step - s0) / (now - t0))` and
overwrites the cache entry with `(now, step)`. -/
theorem C3_eta_fallback (t0 s0 now total step : ℚ)
    (hdt : epsQ ≤ now - t0) (hds : s0 < step) (etaIn : Option ℚ)
    (hEta : etaIn = none ∨ etaIn = some 0) :
    on_progress (some (t0, s0)) now total step etaIn =
      (some (max 0 (total - step) / (max 0 (step - s0) / (now - t0))),
        (now, step)) := by
  have heps : (0 : ℚ) < epsQ := by norm_num [epsQ]
  have hdt' : max epsQ (now - t0) = now - t0 := max_eq_right hdt
  have hds' : max 0 (step - s0) = step - s0 := max_eq_right (by linarith)
  have hpos : 0 < max 0 (step - s0) / max epsQ (now - t0) := by
    rw [hdt', hds']
    have h1 : 0 < step - s0 := by linarith
    have h2 : 0 < now - t0 := by linarith
    positivity
  have hfb : fallbackEta (some (t0, s0)) now total step =
      some (max 0 (total - step) / (max 0 (step - s0) / (now - t0))) := by
    rw [fallbackEta]
    rw [if_pos hpos, hdt']
  rcases hEta with h | h <;> subst h
  · show (fallbackEta (some (t0, s0)) now total step, (now, step)) = _
    rw [hfb]
  · show ((if (0 : ℚ) = 0 then fallbackEta (some (t0, s0)) now total step
        else some 0), (now, step)) = _
    rw [if_pos rfl, hfb]

/-- Witness for C3, the spec's worked example: cached `(t=0s, step=10)`,
event at `(t=10s, step=20)` with `total=100` and no backend ETA gives
`eta = 80 / (10 / 10) = 80` seconds and cache `(10, 20)`. -/
theorem C3_eta_fallback_witness :
    epsQ ≤ (10 : ℚ) - 0 ∧ (10 : ℚ) < 20 ∧
    on_progress (some (0, 10)) 10 100 20 none = (some 80, (10, 20)) := by
  refine ⟨by norm_num [epsQ], by norm_num, ?_⟩
  have h := C3_eta_fallback 0 10 10 100 20 (by norm_num [epsQ])
    (by norm_num) none (Or.inl rfl)
  rw [h]
  norm_num
